import Mathlib

/-!
Shallow embedding of the gamemode daemon configuration store
(src/daemon/daemon_config.c, src/daemon/daemon_config.h).

C strings are modelled as lists of their non-NUL bytes (`CStr`): the C
string of the single byte 120 is `[120]`, the empty string is `[]`.  A slot of one of the
four fixed-capacity lists (`char [CONFIG_LIST_MAX][CONFIG_VALUE_MAX]`)
is one `CStr`; a slot whose first byte is NUL reads back as `[]`.  The
`pthread` lock, the inotify descriptors and the file system are outside
the sequential semantics modelled here: a load is given the output of the
tokenizer for the file it managed to open, as `Option (List IniEntry)`
(`none` = neither candidate path was readable), since the external inih
tokenizer invokes the handler once per (section, name, value) triple and
the handler below always returns 1 (continue).
-/

/-- Byte list standing for a NUL-terminated C string (terminator excluded). -/
abbrev CStr := List Nat

/-- `CONFIG_LIST_MAX` from daemon_config.h. -/
def CONFIG_LIST_MAX : Nat := 32

/-- `CONFIG_VALUE_MAX` from daemon_config.h. -/
def CONFIG_VALUE_MAX : Nat := 256

/-- `DEFAULT_REAPER_FREQ` from daemon_config.c. -/
def DEFAULT_REAPER_FREQ : Int := 5

/-- `LONG_MAX` on the target (64-bit Linux). -/
def LONG_MAX : Int := 2 ^ 63 - 1

/-- `LONG_MIN` on the target (64-bit Linux). -/
def LONG_MIN : Int := -(2 ^ 63)

/-- Encode an ASCII Lean string as a `CStr`. -/
def cstr (s : String) : CStr := s.toList.map Char.toNat

/-- The data fields of `struct GameModeConfig` (daemon_config.c lines 55-67).
The `rwlock`, `inotfd` and `inotwd` fields carry no configuration data and
are omitted; each list field holds exactly `CONFIG_LIST_MAX` slots. -/
structure GameModeConfig where
  whitelist : List CStr
  blacklist : List CStr
  startscripts : List CStr
  endscripts : List CStr
  reaper_frequency : Int
deriving DecidableEq

/-- `append_value_to_list` (daemon_config.c lines 72-100).
The scan `while (*list[i] && ++i < CONFIG_LIST_MAX);` stops at the first
slot whose first byte is NUL, or at `CONFIG_LIST_MAX` when every slot is
occupied; on a 32-slot list that index is `findIdx isEmpty`.  `strncpy`
with bound `CONFIG_VALUE_MAX` leaves `list[i][CONFIG_VALUE_MAX-1]`
non-NUL exactly when `strlen(value) ≥ CONFIG_VALUE_MAX`; in that case the
slot is `memset` to zero and the call fails, otherwise the slot holds a
NUL-terminated copy of `value` (zero-padded).  Returns (success, list). -/
def append_value_to_list (value : CStr) (list : List CStr) :
    Bool × List CStr :=
  let i := list.findIdx (fun s => s.isEmpty)
  if i < CONFIG_LIST_MAX then
    if CONFIG_VALUE_MAX ≤ value.length then
      (false, list.set i [])
    else
      (true, list.set i value)
  else
    (false, list)

/-- C-locale `isspace`, the characters `strtol` skips. -/
def isSpaceByte (b : Nat) : Bool := b == 32 || (9 ≤ b && b ≤ 13)

/-- ASCII decimal digit test. -/
def isDigitByte (b : Nat) : Bool := 48 ≤ b && b ≤ 57

/-- Base-10 value of a run of ASCII digits. -/
def digitsVal (ds : List Nat) : Nat := ds.foldl (fun acc d => acc * 10 + (d - 48)) 0

/-- Result of one `strtol(value, &end, 10)` call: the returned long,
`end - value` (bytes consumed), and whether `errno` was set to `ERANGE`. -/
structure StrtolResult where
  value : Int
  consumed : Nat
  erange : Bool
deriving DecidableEq

/-- C `strtol` with base 10 (external libc collaborator, standard
semantics): skip C-locale whitespace, an optional single sign, then a
digit run.  With no digits, `end` is reset to the input pointer and 0 is
returned; on overflow the result clamps to `LONG_MAX`/`LONG_MIN` and
`errno` = `ERANGE`.  `errno` is assumed clear on entry. -/
def strtol10 (s : CStr) : StrtolResult :=
  let ws := s.takeWhile isSpaceByte
  let afterWs := s.dropWhile isSpaceByte
  let signIsNeg : Bool := afterWs.headD 0 == 45
  let signLen : Nat := if afterWs.headD 0 == 45 || afterWs.headD 0 == 43 then 1 else 0
  let digits := (afterWs.drop signLen).takeWhile isDigitByte
  if digits.isEmpty then
    { value := 0, consumed := 0, erange := false }
  else
    let v : Int := (if signIsNeg then -1 else 1) * (digitsVal digits : Int)
    if LONG_MAX < v then
      { value := LONG_MAX, consumed := ws.length + signLen + digits.length, erange := true }
    else if v < LONG_MIN then
      { value := LONG_MIN, consumed := ws.length + signLen + digits.length, erange := true }
    else
      { value := v, consumed := ws.length + signLen + digits.length, erange := false }

/-- `get_long_value` (daemon_config.c lines 105-121).  The C test that
`end` points at the terminating NUL holds exactly when the bytes consumed
equal the length of the string, and the test that the first byte of
`value` is not NUL exactly when the string is non-empty; `end` is never
NULL after `strtol`.  Returns (success, output), writing `output` only on
success. -/
def get_long_value (value : CStr) (output : Int) : Bool × Int :=
  let r := strtol10 value
  if r.erange then
    (false, output)
  else if r.value ≤ 0 ∨ ¬(value ≠ [] ∧ r.consumed = value.length) then
    (false, output)
  else
    (true, r.value)

/-- One (section, name, value) triple delivered by the external inih
tokenizer to the handler; `sec` stands for the C parameter `section`. -/
structure IniEntry where
  sec : CStr
  name : CStr
  value : CStr
deriving DecidableEq

/-- `inih_handler` (daemon_config.c lines 126-158).  Dispatches on
(section, name), runs the matching validator, logs-and-ignores anything
else, and always returns 1 so that inih continues with the next entry. -/
def inih_handler (self : GameModeConfig) (sec name value : CStr) :
    GameModeConfig × Int :=
  let r :=
    if sec = cstr ("filter") then
      if name = cstr ("whitelist") then
        let a := append_value_to_list value self.whitelist
        ({ self with whitelist := a.2 }, a.1)
      else if name = cstr ("blacklist") then
        let a := append_value_to_list value self.blacklist
        ({ self with blacklist := a.2 }, a.1)
      else (self, false)
    else if sec = cstr ("general") then
      if name = cstr ("reaper_freq") then
        let a := get_long_value value self.reaper_frequency
        ({ self with reaper_frequency := a.2 }, a.1)
      else (self, false)
    else if sec = cstr ("custom") then
      if name = cstr ("start") then
        let a := append_value_to_list value self.startscripts
        ({ self with startscripts := a.2 }, a.1)
      else if name = cstr ("end") then
        let a := append_value_to_list value self.endscripts
        ({ self with endscripts := a.2 }, a.1)
      else (self, false)
    else (self, false)
  (r.1, 1)

/-- An all-empty 32-slot list: the state of each list after `memset(..., 0, ...)`. -/
def emptyList : List CStr := List.replicate CONFIG_LIST_MAX []

/-- The store right after the reset in `load_config_file` (lines 169-173):
all four lists zeroed and the reaper frequency at its default. -/
def resetConfig (self : GameModeConfig) : GameModeConfig :=
  { self with
    whitelist := emptyList
    blacklist := emptyList
    startscripts := emptyList
    endscripts := emptyList
    reaper_frequency := DEFAULT_REAPER_FREQ }

/-- `ini_parse_file` driving `inih_handler` over every tokenized entry
(the handler always returns 1, so inih never stops early). -/
def ini_parse_entries (entries : List IniEntry) (self : GameModeConfig) :
    GameModeConfig :=
  entries.foldl (fun s e => (inih_handler s e.sec e.name e.value).1) self

/-- `load_config_file` (daemon_config.c lines 163-200): under the write
lock, reset every field, then, if one of the two candidate paths was
readable (`file = some entries`), parse it; with no readable file
(`file = none`) the reset state stands. -/
def load_config_file (self : GameModeConfig) (file : Option (List IniEntry)) :
    GameModeConfig :=
  let self := resetConfig self
  match file with
  | none => self
  | some entries => ini_parse_entries entries self

/-- `config_reload` (daemon_config.c lines 226-229). -/
def config_reload (self : GameModeConfig) (file : Option (List IniEntry)) :
    GameModeConfig :=
  load_config_file self file

/-- C `strstr(haystack, needle) != NULL` (external libc collaborator,
standard semantics): some index of the haystack starts a copy of the
needle; an empty needle is found at index 0. -/
def strstrFound (haystack needle : CStr) : Bool :=
  (List.range (haystack.length + 1)).any
    (fun i => (haystack.drop i).take needle.length == needle)

/-- `config_get_client_whitelisted` (daemon_config.c lines 245-268): true
outright when `whitelist[0][0]` is NUL; otherwise scans slots while
`i < CONFIG_LIST_MAX` and the slot is non-empty, ORing `strstr` hits. -/
def config_get_client_whitelisted (self : GameModeConfig) (client : CStr) :
    Bool :=
  if (self.whitelist.headD []).isEmpty then
    true
  else
    ((self.whitelist.take CONFIG_LIST_MAX).takeWhile (fun s => !s.isEmpty)).any
      (fun e => strstrFound client e)

/-- `config_get_client_blacklisted` (daemon_config.c lines 273-292): scans
slots while `i < CONFIG_LIST_MAX` and the slot is non-empty, ORing
`strstr` hits; no empty-list special case. -/
def config_get_client_blacklisted (self : GameModeConfig) (client : CStr) :
    Bool :=
  ((self.blacklist.take CONFIG_LIST_MAX).takeWhile (fun s => !s.isEmpty)).any
    (fun e => strstrFound client e)

/-- `config_get_reaper_thread_frequency` (daemon_config.c lines 297-308). -/
def config_get_reaper_thread_frequency (self : GameModeConfig) : Int :=
  self.reaper_frequency

/-- The contiguous-prefix invariant of the spec for one list: every slot at or
after an empty slot is empty. -/
def contiguousList (l : List CStr) : Prop :=
  ∀ i, i < l.length → ∀ j, j < l.length → i ≤ j →
    (l.getD i []).isEmpty = true → (l.getD j []).isEmpty = true

instance (l : List CStr) : Decidable (contiguousList l) := by
  unfold contiguousList
  infer_instance

/-- A sequence of `append_value_to_list` calls on one list, as the handler
performs for repeated occurrences of the same key; the Bool records
whether every single append succeeded. -/
def appendSeq (vs : List CStr) (l : List CStr) : Bool × List CStr :=
  match vs with
  | [] => (true, l)
  | v :: rest =>
    let r := append_value_to_list v l
    let r2 := appendSeq rest r.2
    (r.1 && r2.1, r2.2)

/-- The five (section, key) pairs of the dispatch table in `inih_handler`. -/
def recognizedPair (sec name : CStr) : Prop :=
  (sec = cstr ("filter") ∧ name = cstr ("whitelist")) ∨
  (sec = cstr ("filter") ∧ name = cstr ("blacklist")) ∨
  (sec = cstr ("general") ∧ name = cstr ("reaper_freq")) ∨
  (sec = cstr ("custom") ∧ name = cstr ("start")) ∨
  (sec = cstr ("custom") ∧ name = cstr ("end"))

instance (sec name : CStr) : Decidable (recognizedPair sec name) := by
  unfold recognizedPair
  infer_instance

/-- The store holding only defaults: what the reset leaves when no file
follows. -/
def defaultConfig : GameModeConfig :=
  { whitelist := emptyList
    blacklist := emptyList
    startscripts := emptyList
    endscripts := emptyList
    reaper_frequency := DEFAULT_REAPER_FREQ }

/-- A concrete prior store whose whitelist differs from the defaults. -/
def cfgPrior : GameModeConfig :=
  { whitelist := cstr ("x") :: List.replicate 31 []
    blacklist := emptyList
    startscripts := emptyList
    endscripts := emptyList
    reaper_frequency := DEFAULT_REAPER_FREQ }

/-- A file entry putting the string of byte 120 on the whitelist. -/
def entryWhitelistX : IniEntry :=
  { sec := cstr ("filter"), name := cstr ("whitelist"), value := cstr ("x") }

/-- A file entry setting the reaper frequency to 7. -/
def entryReaper7 : IniEntry :=
  { sec := cstr ("general"), name := cstr ("reaper_freq"), value := cstr ("7") }

/-- An arbitrary small starting store for concrete instantiations. -/
def cfg0 : GameModeConfig :=
  { whitelist := [], blacklist := [], startscripts := [], endscripts := []
    reaper_frequency := 0 }

/-- A store with one three-byte entry on the whitelist and on the
blacklist, for concrete query instantiations. -/
def cfgFoo : GameModeConfig :=
  { whitelist := cstr ("foo") :: List.replicate 31 []
    blacklist := cstr ("foo") :: List.replicate 31 []
    startscripts := emptyList
    endscripts := emptyList
    reaper_frequency := DEFAULT_REAPER_FREQ }

/-! ## Helper lemmas -/

/-- Equation form of `append_value_to_list`. -/
lemma append_value_to_list_eq (v : CStr) (l : List CStr) :
    append_value_to_list v l =
      if l.findIdx (fun s => s.isEmpty) < CONFIG_LIST_MAX then
        if CONFIG_VALUE_MAX ≤ v.length then
          (false, l.set (l.findIdx (fun s => s.isEmpty)) [])
        else
          (true, l.set (l.findIdx (fun s => s.isEmpty)) v)
      else
        (false, l) := rfl

/-- Equation form of `get_long_value`. -/
lemma get_long_value_eq (value : CStr) (output : Int) :
    get_long_value value output =
      if (strtol10 value).erange then
        (false, output)
      else if (strtol10 value).value ≤ 0 ∨
          ¬(value ≠ [] ∧ (strtol10 value).consumed = value.length) then
        (false, output)
      else
        (true, (strtol10 value).value) := rfl

/-- Setting an already-empty slot back to empty does not change the list. -/
lemma set_getD_empty_self (l : List CStr) (i : Nat) (he : l.getD i [] = []) :
    l.set i [] = l := by
  by_cases hlt : i < l.length
  · apply List.ext_getElem?
    intro n
    by_cases hn : i = n
    · subst hn
      rw [List.getElem?_set_self hlt, List.getElem?_eq_getElem hlt]
      rw [List.getD_eq_getElem _ _ hlt] at he
      rw [he]
    · rw [List.getElem?_set_ne hn]
  · exact List.set_eq_of_length_le (Nat.le_of_not_lt hlt)

/-- Every slot of an all-empty suffix reads back empty. -/
lemma getD_replicate_empty (k m : Nat) :
    (List.replicate k ([] : CStr)).getD m [] = [] := by
  by_cases h : m < k
  · rw [List.getD_eq_getElem _ _ (by simpa using h)]
    exact List.getElem_replicate ..
  · exact List.getD_eq_default _ _ (by simpa using Nat.le_of_not_lt h)

/-- On a list of occupied slots followed by empty ones, the scan of
`append_value_to_list` stops exactly at the boundary. -/
lemma findIdx_isEmpty_append_replicate (pre : List CStr) (k : Nat)
    (hpre : ∀ s ∈ pre, s.isEmpty = false) :
    (pre ++ List.replicate k ([] : CStr)).findIdx (fun s : CStr => s.isEmpty) =
      pre.length := by
  rw [List.findIdx_append]
  have h1 : pre.findIdx (fun s : CStr => s.isEmpty) = pre.length :=
    List.findIdx_eq_length_of_false hpre
  rw [h1]
  have h2 : (List.replicate k ([] : CStr)).findIdx (fun s : CStr => s.isEmpty) = 0 := by
    cases k with
    | zero => rfl
    | succ k => simp [List.replicate_succ, List.findIdx_cons]
  simp [h2]

/-- Writing at the boundary slot of an occupied-then-empty list. -/
lemma set_first_gap (pre : List CStr) (k : Nat) (v : CStr) :
    (pre ++ List.replicate (k + 1) []).set pre.length v =
      pre ++ v :: List.replicate k [] := by
  rw [List.set_append_right _ _ (Nat.le_refl _)]
  simp [List.replicate_succ]

/-- A contiguous list decomposes as occupied slots followed by empty ones. -/
lemma contiguous_shape {l : List CStr} (h : contiguousList l) :
    ∃ pre k, (∀ s ∈ pre, s.isEmpty = false) ∧ pre.length + k = l.length ∧
      l = pre ++ List.replicate k [] := by
  induction l with
  | nil => exact ⟨[], 0, by simp, by simp, rfl⟩
  | cons x xs ih =>
    by_cases hx : x.isEmpty
    · refine ⟨[], xs.length + 1, by simp, by simp, ?_⟩
      have hall : ∀ b ∈ x :: xs, b = ([] : CStr) := by
        intro b hb
        obtain ⟨j, hj, rfl⟩ := List.mem_iff_getElem.mp hb
        have hres := h 0 (by simp) j hj (Nat.zero_le _) (by simpa using hx)
        rw [List.getD_eq_getElem _ _ hj] at hres
        exact List.isEmpty_iff.mp hres
      simpa using List.eq_replicate_iff.mpr ⟨by simp, hall⟩
    · have hxs : contiguousList xs := by
        intro i hi j hj hij he
        have hres := h (i + 1) (by simpa using Nat.succ_lt_succ hi)
          (j + 1) (by simpa using Nat.succ_lt_succ hj)
          (Nat.succ_le_succ hij) (by simpa using he)
        simpa using hres
      obtain ⟨pre, k, hp, hlen, heq⟩ := ih hxs
      refine ⟨x :: pre, k, ?_, by simp only [List.length_cons]; omega, by simp [heq]⟩
      intro s hs
      rcases List.mem_cons.mp hs with rfl | hs
      · exact Bool.eq_false_iff.mpr hx
      · exact hp s hs

/-- Occupied slots followed by empty ones satisfy the invariant. -/
lemma shape_contiguous (pre : List CStr) (k : Nat)
    (hpre : ∀ s ∈ pre, s.isEmpty = false) :
    contiguousList (pre ++ List.replicate k []) := by
  intro i hi j hj hij he
  by_cases hjp : j < pre.length
  · exfalso
    have hip : i < pre.length := Nat.lt_of_le_of_lt hij hjp
    rw [List.getD_eq_getElem _ _ hi, List.getElem_append_left hip] at he
    have hne := hpre _ (List.getElem_mem hip)
    rw [he] at hne
    exact Bool.noConfusion hne
  · rw [List.getD_append_right _ _ _ _ (Nat.le_of_not_lt hjp)]
    rw [getD_replicate_empty]
    rfl

/-- Behaviour of one append on a contiguous list in decomposed form. -/
lemma append_on_shape (v : CStr) (pre : List CStr) (k : Nat)
    (hpre : ∀ s ∈ pre, s.isEmpty = false)
    (hlen : pre.length + k = CONFIG_LIST_MAX) :
    append_value_to_list v (pre ++ List.replicate k []) =
      if k = 0 then
        (false, pre ++ List.replicate k [])
      else if CONFIG_VALUE_MAX ≤ v.length then
        (false, pre ++ List.replicate k [])
      else
        (true, pre ++ v :: List.replicate (k - 1) []) := by
  rw [append_value_to_list_eq]
  rw [findIdx_isEmpty_append_replicate pre k hpre]
  cases k with
  | zero =>
    have hnot : ¬ pre.length < CONFIG_LIST_MAX := by omega
    simp [hnot]
  | succ k =>
    have hlt : pre.length < CONFIG_LIST_MAX := by omega
    by_cases hv : CONFIG_VALUE_MAX ≤ v.length
    · rw [if_pos hlt, if_pos hv, if_neg (Nat.succ_ne_zero k), if_pos hv]
      rw [set_first_gap]
      simp [List.replicate_succ]
    · rw [if_pos hlt, if_neg hv, if_neg (Nat.succ_ne_zero k), if_neg hv]
      rw [set_first_gap]
      simp

/-- The whitelist is untouched by the handler for any other key. -/
lemma handler_whitelist_frame (st : GameModeConfig) (sec name value : CStr)
    (h : ¬(sec = cstr ("filter") ∧ name = cstr ("whitelist"))) :
    (inih_handler st sec name value).1.whitelist = st.whitelist := by
  unfold inih_handler
  dsimp only
  split_ifs with h1 h2 h3 h4 h5 h6 h7 h8
  · exact absurd ⟨h1, h2⟩ h
  · rfl
  · rfl
  · rfl
  · rfl
  · rfl
  · rfl
  · rfl
  · rfl

/-- Parsing entries none of which target the whitelist never changes it. -/
lemma parse_whitelist_frame (B : List IniEntry) :
    ∀ st : GameModeConfig,
      (∀ e ∈ B, ¬(e.sec = cstr ("filter") ∧ e.name = cstr ("whitelist"))) →
      (ini_parse_entries B st).whitelist = st.whitelist := by
  induction B with
  | nil => intro st _; rfl
  | cons e B ih =>
    intro st hB
    have h1 : (inih_handler st e.sec e.name e.value).1.whitelist = st.whitelist :=
      handler_whitelist_frame st e.sec e.name e.value (hB e (by simp))
    calc (ini_parse_entries (e :: B) st).whitelist
        = (ini_parse_entries B (inih_handler st e.sec e.name e.value).1).whitelist := rfl
      _ = (inih_handler st e.sec e.name e.value).1.whitelist :=
          ih _ (fun x hx => hB x (by simp [hx]))
      _ = st.whitelist := h1

/-! ## Claims -/

/-- C1: the state after a load depends only on the file content, never on
the prior state — the load resets all four lists and the reaper frequency
before applying the entries of the file.  Hence loading the same file
twice yields identical contents both times, and a file with no whitelist
entries loaded after any other file leaves the whitelist empty. -/
theorem C1_load_depends_only_on_file :
    (∀ (s t : GameModeConfig) (f : Option (List IniEntry)),
      load_config_file s f = load_config_file t f) ∧
    (∀ (s : GameModeConfig) (f : Option (List IniEntry)),
      load_config_file (load_config_file s f) f = load_config_file s f) ∧
    (∀ (s : GameModeConfig) (fA : Option (List IniEntry)) (B : List IniEntry),
      (∀ e ∈ B, ¬(e.sec = cstr ("filter") ∧ e.name = cstr ("whitelist"))) →
      (load_config_file (load_config_file s fA) (some B)).whitelist = emptyList) := by
  have hreset : ∀ s t : GameModeConfig, resetConfig s = resetConfig t := by
    intro s t; cases s; cases t; rfl
  have hdep : ∀ (s t : GameModeConfig) (f : Option (List IniEntry)),
      load_config_file s f = load_config_file t f := by
    intro s t f
    unfold load_config_file
    rw [hreset s t]
  refine ⟨hdep, fun s f => hdep _ s f, ?_⟩
  intro s fA B hB
  have hload : (load_config_file (load_config_file s fA) (some B)) =
      ini_parse_entries B (resetConfig (load_config_file s fA)) := rfl
  rw [hload, parse_whitelist_frame B _ hB]
  rfl

/-- C1 witness: a concrete prior load of a whitelist entry followed by a
load of a file without whitelist entries ends with an empty whitelist. -/
theorem C1_witness :
    (∀ e ∈ [entryReaper7],
      ¬(e.sec = cstr ("filter") ∧ e.name = cstr ("whitelist"))) ∧
    (load_config_file (load_config_file cfg0 (some [entryWhitelistX]))
      (some [entryReaper7])).whitelist = emptyList :=
  ⟨by decide,
    C1_load_depends_only_on_file.2.2 cfg0 (some [entryWhitelistX]) [entryReaper7]
      (by decide)⟩

/-- C6: `get_long_value` fails exactly when the conversion overflowed the
long range, the parsed value is not positive, the string is empty, or
bytes remain unconsumed after the numeric portion; every failure leaves
the output untouched, and success overwrites it with the parsed positive
value.  In particular the strings 0 and -5 are rejected and the default 5
is retained. -/
theorem C6_get_long_value_spec (value : CStr) (output : Int) :
    ((get_long_value value output).1 = false ↔
      ((strtol10 value).erange = true ∨ (strtol10 value).value ≤ 0 ∨
        value = [] ∨ (strtol10 value).consumed ≠ value.length)) ∧
    ((get_long_value value output).1 = false →
      (get_long_value value output).2 = output) ∧
    ((get_long_value value output).1 = true →
      0 < (strtol10 value).value ∧
      (get_long_value value output).2 = (strtol10 value).value) ∧
    get_long_value (cstr ("0")) DEFAULT_REAPER_FREQ = (false, DEFAULT_REAPER_FREQ) ∧
    get_long_value (cstr ("-5")) DEFAULT_REAPER_FREQ = (false, DEFAULT_REAPER_FREQ) := by
  refine ⟨?_, ?_, ?_, by decide, by decide⟩ <;> rw [get_long_value_eq]
  · split_ifs with h1 h2
    · exact iff_of_true rfl (Or.inl h1)
    · refine iff_of_true rfl ?_
      rcases h2 with h2 | h2
      · exact Or.inr (Or.inl h2)
      · rcases not_and_or.mp h2 with h3 | h3
        · exact Or.inr (Or.inr (Or.inl (not_not.mp h3)))
        · exact Or.inr (Or.inr (Or.inr h3))
    · refine iff_of_false (by simp) ?_
      push_neg at h2
      intro hcon
      rcases hcon with hc | hc | hc | hc
      · exact h1 hc
      · exact absurd hc (not_le.mpr h2.1)
      · exact h2.2.1 hc
      · exact hc h2.2.2
  · split_ifs <;> simp
  · split_ifs with h1 h2
    · simp
    · simp
    · push_neg at h2
      intro
      exact ⟨h2.1, rfl⟩

/-- C7 counterexample: with no readable config file, a load does NOT leave
the prior state in place — a prior whitelist entry is wiped, because the
reset happens before (and regardless of) the attempt to open a file. -/
theorem C7_counterexample_load_none_wipes :
    ¬((load_config_file cfgPrior none).whitelist = cfgPrior.whitelist) := by
  decide

/-- C7 amended: when neither candidate config file path is readable, the
load leaves the freshly reset defaults in place — all four lists empty
and the reaper frequency at its default 5 — whatever the prior state. -/
theorem C7_amended_load_none_gives_defaults (s : GameModeConfig) :
    load_config_file s none = defaultConfig := by
  cases s
  rfl

/-- C8: any (section, key) pair outside the five-entry dispatch table
leaves every field of the state unchanged, and the handler returns the
continue result 1 for every entry whatsoever (so also on validator
failure). -/
theorem C8_unknown_pairs_ignored :
    (∀ (self : GameModeConfig) (sec name value : CStr),
      ¬recognizedPair sec name →
      inih_handler self sec name value = (self, 1)) ∧
    (∀ (self : GameModeConfig) (sec name value : CStr),
      (inih_handler self sec name value).2 = 1) := by
  constructor
  · intro self sec name value h
    unfold recognizedPair at h
    push_neg at h
    unfold inih_handler
    dsimp only
    split_ifs with h1 h2 h3 h4 h5 h6 h7 h8
    · exact absurd h2 (h.1 h1)
    · exact absurd h3 (h.2.1 h1)
    · rfl
    · exact absurd h5 (h.2.2.1 h4)
    · rfl
    · exact absurd h7 (h.2.2.2.1 h6)
    · exact absurd h8 (h.2.2.2.2 h6)
    · rfl
    · rfl
  · intro self sec name value
    rfl

/-- C8 witness: a concrete unknown pair is ignored and the handler
returns 1. -/
theorem C8_witness :
    ¬recognizedPair (cstr ("general")) (cstr ("whitelist")) ∧
    inih_handler cfg0 (cstr ("general")) (cstr ("whitelist")) (cstr ("x")) =
      (cfg0, 1) :=
  ⟨by decide,
    C8_unknown_pairs_ignored.1 cfg0 (cstr ("general")) (cstr ("whitelist"))
      (cstr ("x")) (by decide)⟩

/-- A list with fewer occupied slots than its length has an empty slot
within reach of the scan. -/
lemma findIdx_lt_of_countP (l : List CStr)
    (hocc : l.countP (fun s : CStr => !s.isEmpty) < l.length) :
    l.findIdx (fun s : CStr => s.isEmpty) < l.length := by
  rw [List.findIdx_lt_length]
  by_contra hno
  push_neg at hno
  have hfull : l.countP (fun s : CStr => !s.isEmpty) = l.length :=
    List.countP_eq_length.mpr (fun a ha => by simpa using hno a ha)
  omega

/-- C9: the contiguous-prefix invariant holds for all four lists right
after the reset done by every load, and one `append_value_to_list` call,
succeeding or failing, preserves it. -/
theorem C9_contiguous_invariant :
    (∀ s : GameModeConfig,
      contiguousList (resetConfig s).whitelist ∧
      contiguousList (resetConfig s).blacklist ∧
      contiguousList (resetConfig s).startscripts ∧
      contiguousList (resetConfig s).endscripts) ∧
    (∀ (l : List CStr) (v : CStr), l.length = CONFIG_LIST_MAX →
      contiguousList l → contiguousList (append_value_to_list v l).2) := by
  constructor
  · intro s
    have he : contiguousList emptyList := by
      have hsh := shape_contiguous [] CONFIG_LIST_MAX (by simp)
      simpa [emptyList] using hsh
    exact ⟨he, he, he, he⟩
  · intro l v hlen hc
    obtain ⟨pre, k, hpre, hlenk, heq⟩ := contiguous_shape hc
    subst heq
    have hsum : pre.length + k = CONFIG_LIST_MAX := by
      rw [List.length_append, List.length_replicate] at hlen
      omega
    rw [append_on_shape v pre k hpre hsum]
    split_ifs with hk hv
    · exact shape_contiguous pre k hpre
    · exact shape_contiguous pre k hpre
    · by_cases hv0 : v = []
      · subst hv0
        have hrep : ([] : CStr) :: List.replicate (k - 1) ([] : CStr) =
            List.replicate k ([] : CStr) := by
          cases k with
          | zero => exact absurd rfl hk
          | succ k => simp [List.replicate_succ]
        dsimp only
        rw [hrep]
        exact shape_contiguous pre k hpre
      · have hall : ∀ s ∈ pre ++ [v], s.isEmpty = false := by
          intro s hs
          rcases List.mem_append.mp hs with hs | hs
          · exact hpre s hs
          · simp only [List.mem_singleton] at hs
            subst hs
            exact List.isEmpty_eq_false.mpr hv0
        have hsh := shape_contiguous (pre ++ [v]) (k - 1) hall
        simpa using hsh

/-- C9 witness: a concrete contiguous list stays contiguous through an
append. -/
theorem C9_witness :
    ((cstr ("a") :: List.replicate 31 ([] : CStr)).length = CONFIG_LIST_MAX ∧
      contiguousList (cstr ("a") :: List.replicate 31 ([] : CStr))) ∧
    contiguousList
      (append_value_to_list (cstr ("b"))
        (cstr ("a") :: List.replicate 31 ([] : CStr))).2 :=
  ⟨⟨by decide, by decide⟩,
    C9_contiguous_invariant.2 (cstr ("a") :: List.replicate 31 ([] : CStr))
      (cstr ("b")) (by decide) (by decide)⟩

/-- C4: on a list with a free slot, a value of at most `S - 1` bytes goes
into the first empty slot with success; a value of `S` bytes or more
fails, the target slot stays fully zeroed, every slot keeps its prior
contents and the number of occupied slots is unchanged. -/
theorem C4_append_length_boundary (l : List CStr) (v : CStr)
    (hlen : l.length = CONFIG_LIST_MAX)
    (hocc : l.countP (fun s : CStr => !s.isEmpty) < CONFIG_LIST_MAX) :
    (l.getD (l.findIdx (fun s : CStr => s.isEmpty)) [] = [] ∧
      (∀ j, j < l.findIdx (fun s : CStr => s.isEmpty) → l.getD j [] ≠ [])) ∧
    (v.length ≤ CONFIG_VALUE_MAX - 1 →
      append_value_to_list v l =
        (true, l.set (l.findIdx (fun s : CStr => s.isEmpty)) v)) ∧
    (CONFIG_VALUE_MAX ≤ v.length →
      append_value_to_list v l = (false, l) ∧
      (append_value_to_list v l).2.getD
        (l.findIdx (fun s : CStr => s.isEmpty)) [] = [] ∧
      (∀ j, (append_value_to_list v l).2.getD j [] = l.getD j []) ∧
      (append_value_to_list v l).2.countP (fun s : CStr => !s.isEmpty) =
        l.countP (fun s : CStr => !s.isEmpty)) := by
  have hfi : l.findIdx (fun s : CStr => s.isEmpty) < l.length :=
    findIdx_lt_of_countP l (by omega)
  have hi0 : l.getD (l.findIdx (fun s : CStr => s.isEmpty)) [] = [] := by
    rw [List.getD_eq_getElem _ _ hfi]
    exact List.isEmpty_iff.mp List.findIdx_getElem
  refine ⟨⟨hi0, ?_⟩, ?_, ?_⟩
  · intro j hj
    have hjl : j < l.length := Nat.lt_of_lt_of_le hj (List.findIdx_le_length _)
    rw [List.getD_eq_getElem _ _ hjl]
    intro hcon
    have hfalse := List.not_of_lt_findIdx hj
    rw [hcon] at hfalse
    exact Bool.noConfusion hfalse
  · intro hsmall
    have hC : CONFIG_VALUE_MAX = 256 := rfl
    have hlt : l.findIdx (fun s : CStr => s.isEmpty) < CONFIG_LIST_MAX := by omega
    have hnotbig : ¬ CONFIG_VALUE_MAX ≤ v.length := by omega
    rw [append_value_to_list_eq, if_pos hlt, if_neg hnotbig]
  · intro hbig
    have hlt : l.findIdx (fun s : CStr => s.isEmpty) < CONFIG_LIST_MAX := by omega
    have heq : append_value_to_list v l = (false, l) := by
      rw [append_value_to_list_eq, if_pos hlt, if_pos hbig]
      rw [set_getD_empty_self _ _ hi0]
    refine ⟨heq, ?_, ?_, ?_⟩
    · rw [heq]; exact hi0
    · intro j; rw [heq]
    · rw [heq]

set_option maxRecDepth 20000 in
/-- C4 witness: a 255-byte entry succeeds and a 256-byte entry fails on a
concrete list with a free slot. -/
theorem C4_witness :
    (emptyList.length = CONFIG_LIST_MAX ∧
      emptyList.countP (fun s : CStr => !s.isEmpty) < CONFIG_LIST_MAX ∧
      (List.replicate 255 97).length ≤ CONFIG_VALUE_MAX - 1) ∧
    append_value_to_list (List.replicate 255 97) emptyList =
      (true, emptyList.set (emptyList.findIdx (fun s : CStr => s.isEmpty))
        (List.replicate 255 97)) ∧
    append_value_to_list (List.replicate 256 97) emptyList =
      (false, emptyList) :=
  ⟨⟨by decide, by decide, by decide⟩,
    (C4_append_length_boundary emptyList (List.replicate 255 97)
      (by decide) (by decide)).2.1 (by decide),
    ((C4_append_length_boundary emptyList (List.replicate 256 97)
      (by decide) (by decide)).2.2 (by decide)).1⟩

/-- Appending valid non-empty values one after the other fills the free
slots in order, each call succeeding. -/
lemma appendSeq_fills :
    ∀ (vs : List CStr) (pre : List CStr) (k : Nat),
      (∀ s ∈ pre, s.isEmpty = false) → pre.length + k = CONFIG_LIST_MAX →
      vs.length ≤ k → (∀ v ∈ vs, v ≠ [] ∧ v.length < CONFIG_VALUE_MAX) →
      appendSeq vs (pre ++ List.replicate k []) =
        (true, (pre ++ vs) ++ List.replicate (k - vs.length) []) := by
  intro vs
  induction vs with
  | nil =>
    intro pre k h1 h2 h3 h4
    simp [appendSeq]
  | cons v vs ih =>
    intro pre k h1 h2 h3 h4
    have hk : k ≠ 0 := by
      simp only [List.length_cons] at h3
      omega
    have hv := h4 v (by simp)
    have hr : append_value_to_list v (pre ++ List.replicate k []) =
        (true, pre ++ v :: List.replicate (k - 1) []) := by
      rw [append_on_shape v pre k h1 h2, if_neg hk,
        if_neg (not_le.mpr hv.2)]
    have hall : ∀ s ∈ pre ++ [v], s.isEmpty = false := by
      intro s hs
      rcases List.mem_append.mp hs with hs | hs
      · exact h1 s hs
      · simp only [List.mem_singleton] at hs
        subst hs
        exact List.isEmpty_eq_false.mpr hv.1
    have hih := ih (pre ++ [v]) (k - 1) hall
      (by simp only [List.length_append, List.length_singleton]; omega)
      (by simp only [List.length_cons] at h3; omega)
      (fun x hx => h4 x (by simp [hx]))
    simp only [appendSeq]
    rw [hr]
    have hstep : pre ++ v :: List.replicate (k - 1) ([] : CStr) =
        (pre ++ [v]) ++ List.replicate (k - 1) ([] : CStr) := by simp
    rw [hstep, hih]
    have harith : k - 1 - vs.length = k - (vs.length + 1) := by omega
    simp [List.append_assoc, harith]

/-- C5: starting from an empty list, a sequence of at most `L` appends of
non-empty values shorter than `S` all succeed and land in order; any
append onto a list whose `L` slots are all occupied fails and leaves the
list unchanged. -/
theorem C5_capacity_boundary :
    (∀ vs : List CStr, vs.length ≤ CONFIG_LIST_MAX →
      (∀ v ∈ vs, v ≠ [] ∧ v.length < CONFIG_VALUE_MAX) →
      appendSeq vs emptyList =
        (true, vs ++ List.replicate (CONFIG_LIST_MAX - vs.length) [])) ∧
    (∀ (v : CStr) (l : List CStr), l.length = CONFIG_LIST_MAX →
      (∀ s ∈ l, s ≠ []) → append_value_to_list v l = (false, l)) := by
  constructor
  · intro vs hlen hvs
    have hfill := appendSeq_fills vs [] CONFIG_LIST_MAX (by simp) (by simp)
      hlen hvs
    simpa [emptyList] using hfill
  · intro v l hlen hs
    have hfull : l.findIdx (fun s : CStr => s.isEmpty) = l.length :=
      List.findIdx_eq_length_of_false
        (fun x hx => List.isEmpty_eq_false.mpr (hs x hx))
    rw [append_value_to_list_eq, hfull, hlen]
    simp

/-- C5 witness: 32 appends of a one-byte value all succeed and fill the
list; a 33rd append onto the now-full list fails and changes nothing. -/
theorem C5_witness :
    ((List.replicate 32 (cstr ("a"))).length ≤ CONFIG_LIST_MAX ∧
      appendSeq (List.replicate 32 (cstr ("a"))) emptyList =
        (true, List.replicate 32 (cstr ("a")) ++
          List.replicate (CONFIG_LIST_MAX - (List.replicate 32 (cstr ("a"))).length) [])) ∧
    append_value_to_list (cstr ("b")) (List.replicate 32 (cstr ("a"))) =
      (false, List.replicate 32 (cstr ("a"))) :=
  ⟨⟨by decide,
    C5_capacity_boundary.1 (List.replicate 32 (cstr ("a"))) (by decide) (by decide)⟩,
    C5_capacity_boundary.2 (cstr ("b")) (List.replicate 32 (cstr ("a")))
      (by decide) (by decide)⟩

/-- C10: appending the empty-string value to a list with a free slot
reports success yet leaves the list exactly as it was — the copied entry
is indistinguishable from an empty slot, no capacity is consumed, and any
subsequent append behaves as if the empty append had never happened. -/
theorem C10_empty_value_append (l : List CStr)
    (hlen : l.length = CONFIG_LIST_MAX) (hcont : contiguousList l)
    (hocc : l.countP (fun s : CStr => !s.isEmpty) < CONFIG_LIST_MAX) :
    append_value_to_list [] l = (true, l) ∧
    (∀ v : CStr,
      append_value_to_list v (append_value_to_list [] l).2 =
        append_value_to_list v l) ∧
    (append_value_to_list [] l).2.countP (fun s : CStr => !s.isEmpty) =
      l.countP (fun s : CStr => !s.isEmpty) := by
  have hfi : l.findIdx (fun s : CStr => s.isEmpty) < l.length :=
    findIdx_lt_of_countP l (by omega)
  have hi0 : l.getD (l.findIdx (fun s : CStr => s.isEmpty)) [] = [] := by
    rw [List.getD_eq_getElem _ _ hfi]
    exact List.isEmpty_iff.mp List.findIdx_getElem
  have hC : CONFIG_VALUE_MAX = 256 := rfl
  have hlt : l.findIdx (fun s : CStr => s.isEmpty) < CONFIG_LIST_MAX := by omega
  have hmain : append_value_to_list [] l = (true, l) := by
    rw [append_value_to_list_eq, if_pos hlt,
      if_neg (by simp [hC] : ¬ CONFIG_VALUE_MAX ≤ ([] : CStr).length)]
    rw [set_getD_empty_self _ _ hi0]
  refine ⟨hmain, ?_, ?_⟩
  · intro v
    rw [hmain]
  · rw [hmain]

/-- C10 witness: on a concrete one-entry list, appending the empty value
succeeds without changing anything. -/
theorem C10_witness :
    ((cstr ("a") :: List.replicate 31 ([] : CStr)).length = CONFIG_LIST_MAX ∧
      contiguousList (cstr ("a") :: List.replicate 31 ([] : CStr)) ∧
      (cstr ("a") :: List.replicate 31 ([] : CStr)).countP
        (fun s : CStr => !s.isEmpty) < CONFIG_LIST_MAX) ∧
    append_value_to_list [] (cstr ("a") :: List.replicate 31 ([] : CStr)) =
      (true, cstr ("a") :: List.replicate 31 ([] : CStr)) :=
  ⟨⟨by decide, by decide, by decide⟩,
    (C10_empty_value_append (cstr ("a") :: List.replicate 31 ([] : CStr))
      (by decide) (by decide) (by decide)).1⟩

/-- The Bool returned by the `strstr` model decides infix containment. -/
lemma strstrFound_iff (hay needle : CStr) :
    strstrFound hay needle = true ↔ needle <:+: hay := by
  unfold strstrFound
  rw [List.any_eq_true]
  constructor
  · rintro ⟨i, _, hp⟩
    rw [beq_iff_eq] at hp
    refine ⟨hay.take i, (hay.drop i).drop needle.length, ?_⟩
    nth_rewrite 1 [← hp]
    rw [List.append_assoc, List.take_append_drop, List.take_append_drop]
  · rintro ⟨s, t, rfl⟩
    refine ⟨s.length, ?_, ?_⟩
    · rw [List.mem_range]
      simp only [List.length_append]
      omega
    · rw [beq_iff_eq, List.append_assoc, List.drop_left, List.take_left]

/-- The query scan visits exactly the occupied prefix of a contiguous
list. -/
lemma takeWhile_shape (pre : List CStr) (k : Nat)
    (hpre : ∀ s ∈ pre, s.isEmpty = false) :
    (pre ++ List.replicate k []).takeWhile (fun s : CStr => !s.isEmpty) = pre := by
  rw [List.takeWhile_append_of_pos (by intro a ha; simp [hpre a ha])]
  cases k with
  | zero => simp
  | succ k => simp [List.replicate_succ]

/-- C2: if the whitelist holds no entry, the query returns true for every
client, the empty one included; if it holds at least one entry, the query
returns true exactly when the client contains some entry as a substring. -/
theorem C2_whitelist_query (self : GameModeConfig) (client : CStr)
    (hlen : self.whitelist.length = CONFIG_LIST_MAX)
    (hcont : contiguousList self.whitelist) :
    ((∀ s ∈ self.whitelist, s = []) →
      config_get_client_whitelisted self client = true) ∧
    ((∃ s ∈ self.whitelist, s ≠ []) →
      (config_get_client_whitelisted self client = true ↔
        ∃ e ∈ self.whitelist, e ≠ [] ∧ e <:+: client)) := by
  obtain ⟨pre, k, hpre, hlenk, heq⟩ := contiguous_shape hcont
  constructor
  · intro hall
    unfold config_get_client_whitelisted
    cases hw : self.whitelist with
    | nil => rfl
    | cons w rest =>
      have hw0 : w = [] := hall w (by rw [hw]; exact List.mem_cons_self w rest)
      rw [hw0]
      rfl
  · intro hne
    have hprene : pre ≠ [] := by
      rintro rfl
      obtain ⟨s, hs, hsne⟩ := hne
      rw [heq] at hs
      simp only [List.nil_append, List.mem_replicate] at hs
      exact hsne hs.2
    unfold config_get_client_whitelisted
    have htake : self.whitelist.take CONFIG_LIST_MAX = self.whitelist :=
      List.take_of_length_le (le_of_eq hlen)
    rw [htake]
    have hhead : (self.whitelist.headD []).isEmpty = false := by
      cases hp : pre with
      | nil => exact absurd hp hprene
      | cons p ps =>
        rw [heq, hp]
        simpa using hpre p (by rw [hp]; exact List.mem_cons_self p ps)
    rw [if_neg (by rw [hhead]; exact Bool.false_ne_true)]
    rw [heq, takeWhile_shape pre k hpre]
    rw [List.any_eq_true]
    constructor
    · rintro ⟨e, he, hfound⟩
      exact ⟨e, List.mem_append_left _ he,
        List.isEmpty_eq_false.mp (hpre e he),
        (strstrFound_iff client e).mp hfound⟩
    · rintro ⟨e, he, hene, hinf⟩
      rcases List.mem_append.mp he with he | he
      · exact ⟨e, he, (strstrFound_iff client e).mpr hinf⟩
      · rw [List.mem_replicate] at he
        exact absurd he.2 hene

/-- C2 witness: the entry foo on the whitelist makes the query on the
client myfoogame decide substring containment. -/
theorem C2_witness :
    (cfgFoo.whitelist.length = CONFIG_LIST_MAX ∧
      contiguousList cfgFoo.whitelist ∧
      (∃ s ∈ cfgFoo.whitelist, s ≠ [])) ∧
    (config_get_client_whitelisted cfgFoo (cstr ("myfoogame")) = true ↔
      ∃ e ∈ cfgFoo.whitelist, e ≠ [] ∧ e <:+: cstr ("myfoogame")) :=
  ⟨⟨by decide, by decide, by decide⟩,
    (C2_whitelist_query cfgFoo (cstr ("myfoogame")) (by decide) (by decide)).2
      (by decide)⟩

/-- C3: if the blacklist holds no entry, the query returns false for every
client; in general it returns true exactly when the client contains some
blacklist entry as a substring. -/
theorem C3_blacklist_query (self : GameModeConfig) (client : CStr)
    (hlen : self.blacklist.length = CONFIG_LIST_MAX)
    (hcont : contiguousList self.blacklist) :
    ((∀ s ∈ self.blacklist, s = []) →
      config_get_client_blacklisted self client = false) ∧
    (config_get_client_blacklisted self client = true ↔
      ∃ e ∈ self.blacklist, e ≠ [] ∧ e <:+: client) := by
  obtain ⟨pre, k, hpre, hlenk, heq⟩ := contiguous_shape hcont
  have htake : self.blacklist.take CONFIG_LIST_MAX = self.blacklist :=
    List.take_of_length_le (le_of_eq hlen)
  constructor
  · intro hall
    have hprenil : pre = [] := by
      cases hp : pre with
      | nil => rfl
      | cons p ps =>
        have hmem : p ∈ self.blacklist := by
          rw [heq, hp]
          exact List.mem_append_left _ (List.mem_cons_self p ps)
        have := hpre p (by rw [hp]; exact List.mem_cons_self p ps)
        rw [hall p hmem] at this
        exact Bool.noConfusion this
    unfold config_get_client_blacklisted
    rw [htake, heq, takeWhile_shape pre k hpre, hprenil]
    rfl
  · unfold config_get_client_blacklisted
    rw [htake, heq, takeWhile_shape pre k hpre]
    rw [List.any_eq_true]
    constructor
    · rintro ⟨e, he, hfound⟩
      exact ⟨e, List.mem_append_left _ he,
        List.isEmpty_eq_false.mp (hpre e he),
        (strstrFound_iff client e).mp hfound⟩
    · rintro ⟨e, he, hene, hinf⟩
      rcases List.mem_append.mp he with he | he
      · exact ⟨e, he, (strstrFound_iff client e).mpr hinf⟩
      · rw [List.mem_replicate] at he
        exact absurd he.2 hene

/-- C3 witness: the entry foo on the blacklist makes the query on the
client bar decide substring containment. -/
theorem C3_witness :
    (cfgFoo.blacklist.length = CONFIG_LIST_MAX ∧
      contiguousList cfgFoo.blacklist) ∧
    (config_get_client_blacklisted cfgFoo (cstr ("bar")) = true ↔
      ∃ e ∈ cfgFoo.blacklist, e ≠ [] ∧ e <:+: cstr ("bar")) :=
  ⟨⟨by decide, by decide⟩,
    (C3_blacklist_query cfgFoo (cstr ("bar")) (by decide) (by decide)).2⟩
